import Mathlib

/-!
Verification of the intent-aware retrieval-and-compression pipeline.

The definitions below are shallow embeddings of the Python sources:
* `src/compression/budget_manager.py` (`estimate_tokens`, `apply_budget`)
* `src/retrieval/intent_detector.py` (`detect_intent`)
* `src/retrieval/retriever.py` (`calculate_intent_bonus`, `retrieve_with_intent`)
* `src/compression/evidence_selector.py` (`split_into_sentences`,
  `score_sentence`, `select_evidence`)
* `src/compression/compressor.py` (`compress_context`)

Modelling conventions: Python floats are modelled as rationals (all score
arithmetic in the source is comparison/addition of small decimal constants),
Python `int` as `Int` (`Nat` where the source value is a length or count),
Python dicts with fixed keys as structures, and Python's stable
`sorted(..., reverse=True)` as `List.mergeSort` with the reflected comparison
(both are stable sorts for a total preorder, hence produce the same list).
The FAISS nearest-neighbour search (`search_index`) is an external
collaborator; functions that consume its output are parametrised by the
result list it returned.
-/

namespace Rag

/-- One retrieval hit as returned by the external `search_index` collaborator:
chunk metadata plus the raw L2 distance (`score`, lower = more similar). -/
structure SearchResult where
  chunk_id : Int
  page : Int
  sectionName : String
  text : String
  score : ℚ
deriving DecidableEq

/-- A chunk after intent-aware reranking (`retrieve_with_intent`). -/
structure RankedChunk where
  chunk_id : Int
  page : Int
  sectionName : String
  text : String
  similarity_score : ℚ
  intent_bonus : ℚ
  final_score : ℚ
  rank : Nat
deriving DecidableEq

/-- Output dict of `detect_intent`. -/
structure IntentInfo where
  intent : String
  confidence : ℚ
  method : String
deriving DecidableEq

/-- One evidence sentence with provenance and score
(the dicts built by `select_evidence`). -/
structure Evidence where
  sentence : String
  page : Int
  sectionName : String
  score : ℚ
deriving DecidableEq

/-- Result dict of `apply_budget`. -/
structure BudgetSelection where
  selected_evidence : List Evidence
  tokens_used : Nat
  num_sentences : Nat
deriving DecidableEq

/-- Result dict of `compress_context`. -/
structure CompressionResult where
  compressed_context : String
  selected_evidence : List Evidence
  tokens_used : Nat
  num_sentences : Nat
deriving DecidableEq

/-- `estimate_tokens` from `budget_manager.py`: `len(text) // 4`. -/
def estimate_tokens (text : String) : Nat := text.length / 4

/-- Token cost of one evidence item, as read by the budget loop
(`estimate_tokens(evidence["sentence"])`). -/
def evCost (e : Evidence) : Nat := estimate_tokens e.sentence

/-- The `for`/`break` loop of `apply_budget`: accumulates evidence while the
running token total stays within the limit, and stops at the first item that
would exceed it. Returns the selected items and the final running total. -/
def budgetLoop (evidence_list : List Evidence) (token_limit : Int) (used : Nat) :
    List Evidence × Nat :=
  match evidence_list with
  | [] => ([], used)
  | e :: rest =>
    if (used : Int) + (evCost e : Int) ≤ token_limit then
      let r := budgetLoop rest token_limit (used + evCost e)
      (e :: r.1, r.2)
    else
      ([], used)

/-- `apply_budget` from `budget_manager.py`. -/
def apply_budget (evidence_list : List Evidence) (token_limit : Int) :
    BudgetSelection :=
  let r := budgetLoop evidence_list token_limit 0
  { selected_evidence := r.1, tokens_used := r.2, num_sentences := r.1.length }

theorem budgetLoop_isPre (ev : List Evidence) (limit : Int) (used : Nat) :
    (budgetLoop ev limit used).1 <+: ev := by
  induction ev generalizing used with
  | nil => simp [budgetLoop]
  | cons e rest ih =>
    simp only [budgetLoop]
    split
    · exact List.cons_prefix_cons.mpr ⟨rfl, ih (used + evCost e)⟩
    · exact List.nil_prefix

theorem budgetLoop_used (ev : List Evidence) (limit : Int) (used : Nat) :
    (budgetLoop ev limit used).2 = used + ((budgetLoop ev limit used).1.map evCost).sum := by
  induction ev generalizing used with
  | nil => simp [budgetLoop]
  | cons e rest ih =>
    simp only [budgetLoop]
    split
    · simp only [List.map_cons, List.sum_cons]
      rw [ih (used + evCost e)]
      ring
    · simp

theorem budgetLoop_le (ev : List Evidence) (limit : Int) (used : Nat)
    (h : (used : Int) ≤ limit) : ((budgetLoop ev limit used).2 : Int) ≤ limit := by
  induction ev generalizing used with
  | nil => simpa [budgetLoop] using h
  | cons e rest ih =>
    simp only [budgetLoop]
    split
    · exact ih (used + evCost e) (by push_cast; omega)
    · simpa using h

theorem budgetLoop_longest (ev : List Evidence) (limit : Int) (used : Nat)
    (p : List Evidence) (hp : p <+: ev)
    (hle : (used : Int) + ((p.map evCost).sum : Int) ≤ limit) :
    p <+: (budgetLoop ev limit used).1 := by
  induction ev generalizing used p with
  | nil =>
    rw [List.prefix_nil.mp hp]
    exact List.nil_prefix
  | cons e rest ih =>
    cases p with
    | nil => exact List.nil_prefix
    | cons q qs =>
      obtain ⟨hq, hqs⟩ := List.cons_prefix_cons.mp hp
      subst hq
      simp only [List.map_cons, List.sum_cons, Nat.cast_add] at hle
      have hcost : (0 : Int) ≤ ((qs.map evCost).sum : Int) := Int.ofNat_nonneg _
      have hfit : (used : Int) + (evCost q : Int) ≤ limit := by omega
      simp only [budgetLoop, if_pos hfit]
      refine List.cons_prefix_cons.mpr ⟨rfl, ih (used + evCost q) qs hqs ?_⟩
      rw [Nat.cast_add]
      omega

/-- Sample evidence list: two pre-scored sentences (mirrors the module test
data in `budget_manager.py`). -/
def evW : List Evidence :=
  [⟨"We achieved 95% accuracy on the test set.", 5, "Results", 11/20⟩,
   ⟨"The F1 score was 0.92.", 5, "Results", 1/2⟩]

/-- Single-sentence evidence list used as a concrete input. -/
def evB : List Evidence :=
  [⟨"Machine learning is defined as the study of algorithms.", 1, "Introduction", 3/10⟩]

/-- C1: for every evidence list and every `token_limit ≥ 0`, `apply_budget`
selects a prefix of the input order, estimates each item's cost as
`length(sentence) // 4` (`evCost`), makes `tokens_used` the sum of the
selected costs with `tokens_used ≤ token_limit`, and the selection is the
longest prefix whose total cost fits — so the loop accepts an item exactly
when the running total plus its cost is within budget and stops at the first
item that would exceed it, never skipping past it. -/
theorem apply_budget_greedy_spec (ev : List Evidence) (limit : Int) (h : 0 ≤ limit) :
    (apply_budget ev limit).selected_evidence <+: ev ∧
    ((apply_budget ev limit).tokens_used
      = (((apply_budget ev limit).selected_evidence).map evCost).sum) ∧
    (((apply_budget ev limit).tokens_used : Int) ≤ limit) ∧
    ((apply_budget ev limit).num_sentences
      = (apply_budget ev limit).selected_evidence.length) ∧
    ∀ p : List Evidence, p <+: ev → ((p.map evCost).sum : Int) ≤ limit →
      p <+: (apply_budget ev limit).selected_evidence := by
  refine ⟨budgetLoop_isPre ev limit 0, ?_, ?_, rfl, ?_⟩
  · simpa using budgetLoop_used ev limit 0
  · exact budgetLoop_le ev limit 0 (by exact_mod_cast h)
  · intro p hp hple
    exact budgetLoop_longest ev limit 0 p hp (by simpa using hple)

theorem apply_budget_greedy_spec_witness :
    (0 : Int) ≤ 12 ∧ ((apply_budget evW 12).tokens_used : Int) ≤ 12 :=
  ⟨by decide, (apply_budget_greedy_spec evW 12 (by decide)).2.2.1⟩

/-- C7 counterexample: with `token_limit = -1` the loop selects nothing and
`tokens_used = 0 > token_limit`, refuting `tokens_used ≤ token_limit` for
arbitrary limits; and with a generous limit the selection equals the whole
input list, so it is not a *strict* prefix of the input. -/
theorem apply_budget_c7_counterexample :
    (apply_budget ([] : List Evidence) (-1)).tokens_used = 0 ∧
    ¬ (((apply_budget ([] : List Evidence) (-1)).tokens_used : Int) ≤ -1) ∧
    (apply_budget evB 1000).selected_evidence = evB :=
  ⟨rfl, by decide, rfl⟩

/-- C7 (amended): for every evidence list and every `token_limit ≥ 0`,
`tokens_used ≤ token_limit` and the selection is a (possibly complete) prefix
of the input evidence order. -/
theorem apply_budget_invariant (ev : List Evidence) (limit : Int) (h : 0 ≤ limit) :
    ((apply_budget ev limit).tokens_used : Int) ≤ limit ∧
    (apply_budget ev limit).selected_evidence <+: ev :=
  ⟨budgetLoop_le ev limit 0 (by exact_mod_cast h), budgetLoop_isPre ev limit 0⟩

theorem apply_budget_invariant_witness :
    (0 : Int) ≤ 7 ∧ ((apply_budget evB 7).tokens_used : Int) ≤ 7 :=
  ⟨by decide, (apply_budget_invariant evB 7 (by decide)).1⟩

/-- Python's whitespace class for `str` operations (`\s`, `strip`, `split`),
restricted to ASCII. -/
def isPySpace (c : Char) : Bool :=
  c == ' ' || c == '\t' || c == '\n' || c == '\r' || c == '\u000B' || c == '\u000C'

/-- Python's `str.lower()` (ASCII case folding, character by character). -/
def pyLower (s : String) : String := String.mk (s.data.map Char.toLower)

/-- Python's substring test `needle in hay` (on strings). -/
def containsStr (hay needle : String) : Bool := decide (needle.data <:+: hay.data)

/-- Helper for `len(s.split())`: counts maximal runs of non-space characters.
The flag records whether the previous character was inside a word. -/
def wordCountAux : List Char → Bool → Nat
  | [], _ => 0
  | c :: rest, inWord =>
    if isPySpace c then wordCountAux rest false
    else (if inWord then 0 else 1) + wordCountAux rest true

/-- The `intent_patterns` keyword table of `intent_detector.py`, in the
insertion order of the Python dict. -/
def intentPatterns : List (String × List String) :=
  [("RESULT", ["accuracy", "score", "result", "performance", "achieved",
               "percentage", "metric", "evaluation", "benchmark", "improvement",
               "precision", "recall", "f1", "error rate", "loss"]),
   ("METHOD", ["how does", "how do", "architecture", "approach", "algorithm",
               "pipeline", "method", "technique", "process", "step", "procedure",
               "implementation", "design", "mechanism", "work"]),
   ("API_USAGE", ["parameter", "argument", "return", "function", "example",
                  "usage", "syntax", "call", "invoke", "signature", "code",
                  "how to use", "how to call"]),
   ("DEFINITION", ["what is", "what are", "define", "definition", "meaning of",
                   "explain", "describe", "concept of", "term"]),
   ("COMPARISON", ["compare", "comparison", "difference", "versus", "vs",
                   "better than", "worse than", "similar to", "contrast",
                   "advantage", "disadvantage"])]

/-- Weight of a keyword: `len(keyword.split())`, the number of
whitespace-separated words. -/
def kwWeight (kw : String) : Nat := wordCountAux kw.data false

/-- Raw score of one category on the (already lower-cased) query:
the sum of the weights of the keywords contained in it. -/
def kwScore (q : String) (kws : List String) : Nat :=
  ((kws.filter (fun kw => containsStr q kw)).map kwWeight).sum

/-- Number of distinct keywords of one category contained in the query. -/
def kwMatches (q : String) (kws : List String) : Nat :=
  (kws.filter (fun kw => containsStr q kw)).length

/-- Normalized category score: raw score divided by the keyword-list length. -/
def normScore (q : String) (kws : List String) : ℚ :=
  (kwScore q kws : ℚ) / (kws.length : ℚ)

/-- Keyword list of a category, looked up by name (`intent_patterns[best_intent]`). -/
def keywordsOf (intent : String) : List String :=
  ((intentPatterns.lookup intent).getD [])

/-- Python's `max(scores, key=scores.get)` over the non-empty association list
`x :: xs`: the first entry whose value is maximal. -/
def pickBest (x : String × ℚ) (xs : List (String × ℚ)) : String × ℚ :=
  xs.foldl (fun b y => if b.2 < y.2 then y else b) x

/-- The `intent_scores` dict of `detect_intent`: one entry per category with
at least one keyword match, in table order, mapped to its normalized score. -/
def intentScores (query_lower : String) : List (String × ℚ) :=
  intentPatterns.filterMap (fun p =>
    if 0 < kwMatches query_lower p.2 then some (p.1, normScore query_lower p.2) else none)

/-- The tail of `detect_intent`: pick the best-scoring intent (first maximal
entry, as Python's `max` over dict keys), scale its score into a confidence,
boost by 0.2 (capped at 1) when at least two keywords matched, and fall back
to DEFINITION at confidence 0.3 when no category matched. -/
def detectFromScores (query_lower : String) (intent_scores : List (String × ℚ)) :
    IntentInfo :=
  match intent_scores with
  | [] => ⟨"DEFINITION", 3/10, "rule-based"⟩
  | x :: xs =>
    let best := pickBest x xs
    let confidence := min (best.2 * 2) 1
    let keyword_count := kwMatches query_lower (keywordsOf best.1)
    let confidence2 := if 2 ≤ keyword_count then min (confidence + 2/10) 1 else confidence
    ⟨best.1, confidence2, "rule-based"⟩

/-- `detect_intent` from `intent_detector.py`. -/
def detect_intent (query : String) : IntentInfo :=
  detectFromScores (pyLower query) (intentScores (pyLower query))

theorem foldl_best_mem (xs : List (String × ℚ)) :
    ∀ x : String × ℚ, xs.foldl (fun b y => if b.2 < y.2 then y else b) x ∈ x :: xs := by
  induction xs with
  | nil => intro x; simp
  | cons z zs ih =>
    intro x
    simp only [List.foldl_cons]
    rcases Decidable.em (x.2 < z.2) with h | h
    · rw [if_pos h]
      rcases List.mem_cons.mp (ih z) with h' | h'
      · rw [h']; exact List.mem_cons_of_mem _ (List.mem_cons_self _ _)
      · exact List.mem_cons_of_mem _ (List.mem_cons_of_mem _ h')
    · rw [if_neg h]
      rcases List.mem_cons.mp (ih x) with h' | h'
      · rw [h']; exact List.mem_cons_self _ _
      · exact List.mem_cons_of_mem _ (List.mem_cons_of_mem _ h')

theorem foldl_best_init_le (xs : List (String × ℚ)) :
    ∀ x : String × ℚ, x.2 ≤ (xs.foldl (fun b y => if b.2 < y.2 then y else b) x).2 := by
  induction xs with
  | nil => intro x; exact le_refl _
  | cons z zs ih =>
    intro x
    simp only [List.foldl_cons]
    refine le_trans ?_ (ih _)
    rcases Decidable.em (x.2 < z.2) with h | h
    · rw [if_pos h]; exact le_of_lt h
    · rw [if_neg h]

theorem foldl_best_ge (xs : List (String × ℚ)) :
    ∀ x y : String × ℚ, y ∈ x :: xs →
      y.2 ≤ (xs.foldl (fun b y => if b.2 < y.2 then y else b) x).2 := by
  induction xs with
  | nil =>
    intro x y hy
    rw [List.mem_singleton.mp hy]
    exact le_refl _
  | cons z zs ih =>
    intro x y hy
    simp only [List.foldl_cons]
    have hstep : ∀ w : String × ℚ, w = x ∨ w = z →
        w.2 ≤ (if x.2 < z.2 then z else x).2 := by
      intro w hw
      rcases Decidable.em (x.2 < z.2) with h | h
      · rw [if_pos h]
        rcases hw with rfl | rfl
        · exact le_of_lt h
        · exact le_refl _
      · rw [if_neg h]
        rcases hw with rfl | rfl
        · exact le_refl _
        · exact le_of_not_lt h
    rcases List.mem_cons.mp hy with rfl | hy'
    · exact le_trans (hstep y (Or.inl rfl)) (foldl_best_init_le zs _)
    · rcases List.mem_cons.mp hy' with rfl | hy''
      · exact le_trans (hstep y (Or.inr rfl)) (foldl_best_init_le zs _)
      · exact ih _ y (List.mem_cons_of_mem _ hy'')

theorem pickBest_mem (x : String × ℚ) (xs : List (String × ℚ)) :
    pickBest x xs ∈ x :: xs := foldl_best_mem xs x

theorem pickBest_ge (x : String × ℚ) (xs : List (String × ℚ)) :
    ∀ y ∈ x :: xs, y.2 ≤ (pickBest x xs).2 :=
  fun y hy => foldl_best_ge xs x y hy

theorem keywordsOf_table : ∀ p ∈ intentPatterns, keywordsOf p.1 = p.2 := by decide

theorem kwScore_eq_zero {q : String} {kws : List String} (h : kwMatches q kws = 0) :
    kwScore q kws = 0 := by
  unfold kwMatches at h
  unfold kwScore
  rw [List.length_eq_zero.mp h]
  rfl

theorem normScore_nonneg (q : String) (kws : List String) : 0 ≤ normScore q kws :=
  div_nonneg (Nat.cast_nonneg _) (Nat.cast_nonneg _)

theorem normScore_of_no_match {q : String} {kws : List String}
    (h : kwMatches q kws = 0) : normScore q kws = 0 := by
  unfold normScore
  rw [kwScore_eq_zero h]
  simp

theorem mem_intentScores {ql : String} {e : String × ℚ} :
    e ∈ intentScores ql ↔
      ∃ p ∈ intentPatterns, 0 < kwMatches ql p.2 ∧ e = (p.1, normScore ql p.2) := by
  unfold intentScores
  rw [List.mem_filterMap]
  constructor
  · rintro ⟨p, hp, hf⟩
    by_cases h : 0 < kwMatches ql p.2
    · rw [if_pos h] at hf
      exact ⟨p, hp, h, (Option.some_inj.mp hf).symm⟩
    · rw [if_neg h] at hf
      cases hf
  · rintro ⟨p, hp, h, rfl⟩
    exact ⟨p, hp, by rw [if_pos h]⟩

/-- C3: `detect_intent` scores each category by summing the word counts of its
matched keywords, normalizes by the keyword-list length, picks a category of
maximal normalized score, sets the confidence to `min(score * 2, 1)` with an
extra `+0.2` capped at 1 when at least two distinct keywords of the winning
category matched — and falls back to DEFINITION with confidence 0.3 when no
keyword of any category matches (in particular on the empty query). -/
theorem detect_intent_spec (query : String) :
    ((∀ p ∈ intentPatterns, kwMatches (pyLower query) p.2 = 0) →
      detect_intent query = ⟨"DEFINITION", 3/10, "rule-based"⟩) ∧
    ((∃ p ∈ intentPatterns, 0 < kwMatches (pyLower query) p.2) →
      (∃ p ∈ intentPatterns, p.1 = (detect_intent query).intent ∧
          0 < kwMatches (pyLower query) p.2) ∧
      (∀ p ∈ intentPatterns, normScore (pyLower query) p.2
          ≤ normScore (pyLower query) (keywordsOf (detect_intent query).intent)) ∧
      (detect_intent query).confidence =
        (if 2 ≤ kwMatches (pyLower query) (keywordsOf (detect_intent query).intent) then
          min (min (normScore (pyLower query) (keywordsOf (detect_intent query).intent) * 2) 1
            + 2/10) 1
        else
          min (normScore (pyLower query) (keywordsOf (detect_intent query).intent) * 2) 1)) := by
  constructor
  · intro hall
    have hS : intentScores (pyLower query) = [] := by
      unfold intentScores
      rw [List.filterMap_eq_nil_iff]
      intro p hp
      rw [hall p hp]
      rfl
    unfold detect_intent
    rw [hS]
    rfl
  · rintro ⟨p₀, hp₀, hm₀⟩
    have hmem : (p₀.1, normScore (pyLower query) p₀.2) ∈ intentScores (pyLower query) :=
      mem_intentScores.mpr ⟨p₀, hp₀, hm₀, rfl⟩
    cases hS : intentScores (pyLower query) with
    | nil => rw [hS] at hmem; cases hmem
    | cons x xs =>
      have hd2 : detect_intent query =
          ⟨(pickBest x xs).1,
           (if 2 ≤ kwMatches (pyLower query) (keywordsOf (pickBest x xs).1) then
              min (min ((pickBest x xs).2 * 2) 1 + 2/10) 1
            else min ((pickBest x xs).2 * 2) 1), "rule-based"⟩ := by
        unfold detect_intent
        rw [hS]
        rfl
      have hbmem : pickBest x xs ∈ intentScores (pyLower query) := by
        rw [hS]; exact pickBest_mem x xs
      obtain ⟨pb, hpb, hmb, hbe⟩ := mem_intentScores.mp hbmem
      have hkb : keywordsOf (pickBest x xs).1 = pb.2 := by
        rw [hbe]; exact keywordsOf_table pb hpb
      have hbs : (pickBest x xs).2 = normScore (pyLower query) pb.2 := by rw [hbe]
      have hwin : normScore (pyLower query) (keywordsOf (detect_intent query).intent)
          = (pickBest x xs).2 := by
        rw [hd2, hkb, hbs]
      refine ⟨⟨pb, hpb, ?_, hmb⟩, ?_, ?_⟩
      · rw [hd2, hbe]
      · intro p hp
        rw [hwin]
        by_cases hm : 0 < kwMatches (pyLower query) p.2
        · have hin : (p.1, normScore (pyLower query) p.2) ∈ intentScores (pyLower query) :=
            mem_intentScores.mpr ⟨p, hp, hm, rfl⟩
          rw [hS] at hin
          exact pickBest_ge x xs _ hin
        · rw [normScore_of_no_match (Nat.eq_zero_of_not_pos hm), hbs]
          exact normScore_nonneg (pyLower query) pb.2
      · rw [hd2, hkb, hbs]

theorem detect_intent_spec_witness :
    (∀ p ∈ intentPatterns, kwMatches (pyLower "zzz") p.2 = 0) ∧
    detect_intent "zzz" = ⟨"DEFINITION", 3/10, "rule-based"⟩ :=
  ⟨by decide, (detect_intent_spec "zzz").1 (by decide)⟩

theorem intentScores_accuracy_query :
    intentScores (pyLower "What accuracy did the model achieve?")
      = [("RESULT", normScore (pyLower "What accuracy did the model achieve?")
            (keywordsOf "RESULT"))] := rfl

theorem normScore_accuracy_query :
    normScore (pyLower "What accuracy did the model achieve?") (keywordsOf "RESULT")
      = 1/15 := by
  unfold normScore
  rw [show kwScore (pyLower "What accuracy did the model achieve?") (keywordsOf "RESULT")
        = 1 by decide,
      show (keywordsOf "RESULT").length = 15 by decide]
  norm_num

theorem detect_intent_accuracy_eval :
    detect_intent "What accuracy did the model achieve?"
      = ⟨"RESULT", 2/15, "rule-based"⟩ := by
  unfold detect_intent
  rw [intentScores_accuracy_query]
  show IntentInfo.mk _ _ _ = _
  rw [if_neg (by decide), normScore_accuracy_query]
  simp only [pickBest, List.foldl_nil]
  rw [show (1/15 : ℚ) * 2 = 2/15 by norm_num,
      min_eq_left (by norm_num : (2/15 : ℚ) ≤ 1)]

/-- C8 counterexample: on the query `"What accuracy did the model achieve?"`
only the single RESULT keyword `"accuracy"` matches, so the confidence is
`min((1/15) * 2, 1) = 2/15 ≈ 0.13`, which is below 0.3 — refuting the claimed
`confidence ≥ 0.3`. -/
theorem detect_intent_c8_counterexample :
    ¬ ((detect_intent "What accuracy did the model achieve?").intent = "RESULT" ∧
       3/10 ≤ (detect_intent "What accuracy did the model achieve?").confidence) := by
  rw [detect_intent_accuracy_eval]
  rintro ⟨-, h⟩
  norm_num at h

/-- C8 (amended): for the query `"What accuracy did the model achieve?"`, in
which the RESULT keyword `"accuracy"` is present and no keyword of any other
category matches, `detect_intent` returns intent RESULT — but with confidence
`2/15` (about 0.13), which is less than 0.3. -/
theorem detect_intent_accuracy_query_result :
    (detect_intent "What accuracy did the model achieve?").intent = "RESULT" ∧
    (detect_intent "What accuracy did the model achieve?").confidence = 2/15 ∧
    (detect_intent "What accuracy did the model achieve?").confidence < 3/10 := by
  rw [detect_intent_accuracy_eval]
  refine ⟨rfl, rfl, by norm_num⟩

/-- C10 counterexample: in the query `"Compare BERT versus GPT"` the substring
`"versus"` is present, yet the COMPARISON keyword `"vs"` does **not** count as
matched — `"vs"` is not a contiguous substring of `"versus"` — so the matched
COMPARISON keywords are exactly `"compare"` and `"versus"`. -/
theorem substring_match_c10_counterexample :
    containsStr (pyLower "Compare BERT versus GPT") "versus" = true ∧
    containsStr (pyLower "Compare BERT versus GPT") "vs" = false ∧
    (keywordsOf "COMPARISON").filter
        (fun kw => containsStr (pyLower "Compare BERT versus GPT") kw)
      = ["compare", "versus"] := by decide

/-- C10 (amended): `detect_intent` tests keyword presence by contiguous
substring containment in the lower-cased query rather than whole-word
matching: any query containing `"network"` matches the METHOD keyword
`"work"`; but a query containing `"versus"` matches the keyword `"versus"`
itself and not `"vs"`, because `"vs"` does not occur contiguously in
`"versus"`. -/
theorem substring_matching_spec (q : String)
    (h : containsStr (pyLower q) "network" = true) :
    containsStr (pyLower q) "work" = true ∧
    0 < kwMatches (pyLower q) (keywordsOf "METHOD") := by
  have hwn : ("work".data <:+: "network".data) := by decide
  have hn : "network".data <:+: (pyLower q).data := of_decide_eq_true h
  have hw : "work".data <:+: (pyLower q).data := hwn.trans hn
  refine ⟨decide_eq_true hw, ?_⟩
  have hmem : "work" ∈ (keywordsOf "METHOD").filter
      (fun kw => containsStr (pyLower q) kw) :=
    List.mem_filter.mpr ⟨by decide, decide_eq_true hw⟩
  unfold kwMatches
  exact List.length_pos.mpr (List.ne_nil_of_mem hmem)

theorem substring_matching_spec_witness :
    containsStr (pyLower "Graph Network Analysis") "network" = true ∧
    0 < kwMatches (pyLower "Graph Network Analysis") (keywordsOf "METHOD") :=
  ⟨by decide, (substring_matching_spec "Graph Network Analysis" (by decide)).2⟩

/-- `calculate_intent_bonus` from `retriever.py`. -/
def calculate_intent_bonus (text sectionName intent : String) : ℚ :=
  let text_lower := pyLower text
  let section_lower := pyLower sectionName
  let bonus : ℚ :=
    if intent = "RESULT" then
      (if containsStr section_lower "result" then 15/100 else 0)
      + (if text.data.any Char.isDigit then 1/10 else 0)
      + (if containsStr text "%" then 5/100 else 0)
    else if intent = "METHOD" then
      (if containsStr section_lower "method" then 15/100 else 0)
      + (if ["algorithm", "pipeline", "step"].any (fun kw => containsStr text_lower kw)
         then 5/100 else 0)
    else if intent = "API_USAGE" then
      (let count := (["(", ")", "=", ":"].filter (fun s => containsStr text s)).length
       if 3 ≤ count then 2/10 else if 2 ≤ count then 15/100
       else if 1 ≤ count then 1/10 else 0)
    else if intent = "DEFINITION" then
      (if section_lower = "abstract" ∨ section_lower = "introduction" then 2/10
       else if containsStr section_lower "intro" then 15/100 else 0)
    else if intent = "COMPARISON" then
      (if ["compare", "comparison", "difference", "versus", "vs"].any
           (fun kw => containsStr text_lower kw) then 15/100 else 0)
    else 0
  min bonus (3/10)

/-- Assign 1-indexed ranks in list order (`enumerate(final_results, start=1)`);
the first argument is the next rank to hand out. -/
def assignRanks : Nat → List RankedChunk → List RankedChunk
  | _, [] => []
  | n, c :: rest => { c with rank := n } :: assignRanks (n + 1) rest

/-- The comparison of the stable descending sort on `final_score`
(`sorted(..., key=lambda x: x["final_score"], reverse=True)`). -/
def chunkLE (a b : RankedChunk) : Bool := decide (b.final_score ≤ a.final_score)

/-- `retrieve_with_intent` from `retriever.py`, parametrised by the result
list the external `search_index` call returned (the code requests
`top_k * 2` candidates from it). The `rank := 0` in the map is a placeholder:
the code only writes `rank` after sorting and truncation. -/
def retrieve_with_intent (initial_results : List SearchResult)
    (intent_info : IntentInfo) (top_k : Nat) : List RankedChunk :=
  let withScores := initial_results.map (fun r =>
    let similarity : ℚ := -r.score
    let bonus : ℚ :=
      if 3/10 < intent_info.confidence then
        calculate_intent_bonus r.text r.sectionName intent_info.intent
      else 0
    { chunk_id := r.chunk_id, page := r.page, sectionName := r.sectionName,
      text := r.text, similarity_score := similarity, intent_bonus := bonus,
      final_score := similarity + bonus, rank := 0 })
  let reranked := withScores.mergeSort chunkLE
  assignRanks 1 (reranked.take top_k)

theorem chunkLE_trans (a b c : RankedChunk) (hab : chunkLE a b) (hbc : chunkLE b c) :
    chunkLE a c := by
  unfold chunkLE at hab hbc ⊢
  exact decide_eq_true (le_trans (of_decide_eq_true hbc) (of_decide_eq_true hab))

theorem chunkLE_total (a b : RankedChunk) : chunkLE a b || chunkLE b a := by
  unfold chunkLE
  rw [Bool.or_eq_true]
  rcases le_total a.final_score b.final_score with h | h
  · exact Or.inr (decide_eq_true h)
  · exact Or.inl (decide_eq_true h)

theorem assignRanks_map_rank (l : List RankedChunk) :
    ∀ n, (assignRanks n l).map (fun c => c.rank) = List.range' n l.length := by
  induction l with
  | nil => intro n; rfl
  | cons c rest ih =>
    intro n
    simp only [assignRanks, List.map_cons, List.length_cons, List.range'_succ]
    exact congrArg _ (ih (n + 1))

theorem assignRanks_map_final (l : List RankedChunk) :
    ∀ n, (assignRanks n l).map (fun c => c.final_score)
      = l.map (fun c => c.final_score) := by
  induction l with
  | nil => intro n; rfl
  | cons c rest ih =>
    intro n
    simp only [assignRanks, List.map_cons]
    exact congrArg _ (ih (n + 1))

theorem mem_assignRanks {c : RankedChunk} :
    ∀ {n : Nat} {l : List RankedChunk}, c ∈ assignRanks n l →
      ∃ a ∈ l, ∃ m, c = { a with rank := m } := by
  intro n l
  induction l generalizing n with
  | nil => intro h; cases h
  | cons a rest ih =>
    intro h
    rcases List.mem_cons.mp h with rfl | h'
    · exact ⟨a, List.mem_cons_self a rest, n, rfl⟩
    · obtain ⟨a', ha', m, hm⟩ := ih h'
      exact ⟨a', List.mem_cons_of_mem a ha', m, hm⟩

theorem assignRanks_length (l : List RankedChunk) :
    ∀ n, (assignRanks n l).length = l.length := by
  induction l with
  | nil => intro n; rfl
  | cons c rest ih =>
    intro n
    simp only [assignRanks, List.length_cons]
    exact congrArg _ (ih (n + 1))

theorem assignRanks_rank_final (l : List RankedChunk) (n : Nat)
    (hs : l.Pairwise (fun a b => b.final_score ≤ a.final_score)) :
    ((assignRanks n l).map (fun c => c.rank)
      = List.range' n (assignRanks n l).length) ∧
    (∀ a ∈ assignRanks n l, ∀ b ∈ assignRanks n l,
      a.rank < b.rank → b.final_score ≤ a.final_score) := by
  have hfinal : (assignRanks n l).Pairwise (fun a b => b.final_score ≤ a.final_score) := by
    have h1 : ((assignRanks n l).map (fun c => c.final_score)).Pairwise
        (fun x y : ℚ => y ≤ x) := by
      rw [assignRanks_map_final]
      exact List.pairwise_map.mpr hs
    exact List.pairwise_map.mp h1
  have hrank : (assignRanks n l).Pairwise (fun a b => a.rank < b.rank) := by
    have h1 : ((assignRanks n l).map (fun c => c.rank)).Pairwise (· < ·) := by
      rw [assignRanks_map_rank]
      exact List.pairwise_lt_range' n l.length
    exact List.pairwise_map.mp h1
  refine ⟨by rw [assignRanks_length]; exact assignRanks_map_rank l n, ?_⟩
  have hsym : Symmetric (fun a b : RankedChunk =>
      (a.rank < b.rank → b.final_score ≤ a.final_score) ∧
      (b.rank < a.rank → a.final_score ≤ b.final_score)) := by
    intro a b h
    exact ⟨h.2, h.1⟩
  have hall := ((hrank.and hfinal).imp
    (fun hab => ⟨fun _ => hab.2, fun hba => absurd hab.1 (Nat.lt_asymm hba)⟩)).forall hsym
  intro a ha b hb hr
  rcases eq_or_ne a b with rfl | hne
  · exact absurd hr (lt_irrefl _)
  · exact (hall ha hb hne).1 hr

/-- C2: for every retrieval result set, intent and `top_k`, the list returned
by `retrieve_with_intent` carries ranks forming the contiguous sequence
`1..n` in list order, and any two returned chunks with `A.rank < B.rank`
satisfy `A.final_score ≥ B.final_score` — rank-ascending order coincides with
`final_score`-descending order. -/
theorem retrieve_with_intent_rank_spec (results : List SearchResult)
    (info : IntentInfo) (top_k : Nat) :
    ((retrieve_with_intent results info top_k).map (fun c => c.rank)
      = List.range' 1 (retrieve_with_intent results info top_k).length) ∧
    ∀ a ∈ retrieve_with_intent results info top_k,
      ∀ b ∈ retrieve_with_intent results info top_k,
        a.rank < b.rank → b.final_score ≤ a.final_score := by
  unfold retrieve_with_intent
  apply assignRanks_rank_final
  apply List.Pairwise.sublist (List.take_sublist top_k _)
  exact (List.sorted_mergeSort (fun a b c => chunkLE_trans a b c)
    (fun a b => chunkLE_total a b) _).imp (fun h => of_decide_eq_true h)

/-- Intent info with confidence at the 0.3 threshold (not above it). -/
def infoLow : IntentInfo := ⟨"DEFINITION", 1/5, "rule-based"⟩

theorem retrieve_with_intent_rank_spec_witness :
    (retrieve_with_intent [] infoLow 0).map (fun c => c.rank)
      = List.range' 1 (retrieve_with_intent [] infoLow 0).length :=
  (retrieve_with_intent_rank_spec [] infoLow 0).1

/-- A search result converted to a ranked chunk on the low-confidence path of
the reranker: negated distance as similarity, zero intent bonus. -/
def simChunk (r : SearchResult) : RankedChunk :=
  { chunk_id := r.chunk_id, page := r.page, sectionName := r.sectionName,
    text := r.text, similarity_score := -r.score, intent_bonus := 0,
    final_score := -r.score + 0, rank := 0 }

/-- C5: every computed intent bonus lies in `[0, 0.3]` inclusive; and whenever
the intent confidence is `≤ 0.3`, `retrieve_with_intent` assigns
`intent_bonus = 0` to every chunk, so (with the retriever's results arriving
distance-ascending, as the search contract guarantees) the final order equals
the pure similarity order — the first `top_k` results in input order. -/
theorem calculate_intent_bonus_range_low_conf :
    (∀ text sectionName intent, 0 ≤ calculate_intent_bonus text sectionName intent ∧
      calculate_intent_bonus text sectionName intent ≤ 3/10) ∧
    (∀ (results : List SearchResult) (info : IntentInfo) (top_k : Nat),
      info.confidence ≤ 3/10 →
        (∀ c ∈ retrieve_with_intent results info top_k, c.intent_bonus = 0) ∧
        (results.Pairwise (fun r s => r.score ≤ s.score) →
          retrieve_with_intent results info top_k
            = assignRanks 1 ((results.map simChunk).take top_k))) := by
  constructor
  · intro text s i
    constructor
    · unfold calculate_intent_bonus
      refine le_min ?_ (by norm_num)
      dsimp only
      split_ifs <;> norm_num
    · unfold calculate_intent_bonus
      exact min_le_right _ _
  · intro results info top_k hconf
    have hnb : ¬ ((3 : ℚ)/10 < info.confidence) := not_lt.mpr hconf
    have hretr : retrieve_with_intent results info top_k
        = assignRanks 1 (((results.map simChunk).mergeSort chunkLE).take top_k) := by
      unfold retrieve_with_intent
      simp only [if_neg hnb]
      rfl
    constructor
    · intro c hc
      rw [hretr] at hc
      obtain ⟨a, ha, m, rfl⟩ := mem_assignRanks hc
      have ha' : a ∈ (results.map simChunk).mergeSort chunkLE :=
        List.mem_of_mem_take ha
      obtain ⟨r, hr, rfl⟩ := List.mem_map.mp (List.mem_mergeSort.mp ha')
      rfl
    · intro hpair
      rw [hretr]
      congr 1
      congr 1
      apply List.mergeSort_of_sorted
      apply List.pairwise_map.mpr
      apply hpair.imp
      intro r s hrs
      refine decide_eq_true ?_
      show (simChunk s).final_score ≤ (simChunk r).final_score
      simp only [simChunk]
      linarith

theorem calculate_intent_bonus_range_low_conf_witness :
    (0 ≤ calculate_intent_bonus "We achieved 95% accuracy." "Results" "RESULT" ∧
      calculate_intent_bonus "We achieved 95% accuracy." "Results" "RESULT" ≤ 3/10) ∧
    infoLow.confidence ≤ 3/10 ∧
    retrieve_with_intent [] infoLow 2
      = assignRanks 1 ((([] : List SearchResult).map simChunk).take 2) :=
  ⟨calculate_intent_bonus_range_low_conf.1 "We achieved 95% accuracy." "Results" "RESULT",
   by norm_num [infoLow],
   (calculate_intent_bonus_range_low_conf.2 [] infoLow 2 (by norm_num [infoLow])).2
     List.Pairwise.nil⟩

/-- A sentence terminator of the splitting regex: `.`, `!` or `?`. -/
def isSentTerm (c : Char) : Bool := c == '.' || c == '!' || c == '?'

/-- The `[A-Z]` class of the splitting regex. -/
def isUpperAZ (c : Char) : Bool := 'A' ≤ c && c ≤ 'Z'

/-- Python's `str.strip()` (ASCII whitespace from both ends). -/
def pyStrip (s : String) : String :=
  String.mk (((s.data.dropWhile isPySpace).reverse.dropWhile isPySpace).reverse)

/-- The splitting pass of `re.split` with the sentence-boundary pattern
(a terminator, then a nonempty whitespace run, then an upper-case letter):
walks the characters accumulating the current fragment (in reverse) and cuts
exactly at the boundary, consuming the whole whitespace run. The first
argument is fuel bounding the number of steps; every call consumes at least
one character while spending one unit of fuel, so with fuel initialised to
the character count the zero-fuel fallback is unreachable. -/
def splitSentGo : Nat → List Char → List Char → List (List Char)
  | _, [], acc => [acc.reverse]
  | 0, cs, acc => [acc.reverse ++ cs]
  | fuel + 1, c :: rest, acc =>
    if isSentTerm c then
      match rest.dropWhile isPySpace with
      | [] => splitSentGo fuel rest (c :: acc)
      | d :: tail =>
        if 0 < (rest.takeWhile isPySpace).length && isUpperAZ d then
          (c :: acc).reverse :: splitSentGo fuel (d :: tail) []
        else
          splitSentGo fuel rest (c :: acc)
    else
      splitSentGo fuel rest (c :: acc)

/-- The regex split over a character list, with enough fuel for the whole
input. -/
def splitSentChars (cs : List Char) (acc : List Char) : List (List Char) :=
  splitSentGo cs.length cs acc

/-- `split_into_sentences` from `evidence_selector.py`: split at the regex
boundaries, strip each fragment, and drop the fragments that are empty after
stripping. -/
def split_into_sentences (text : String) : List String :=
  ((splitSentChars text.data []).map (fun cs => pyStrip (String.mk cs))).filter
    (fun s => s ≠ "")

/-- Python's `sentence_lower.startswith(...)`. -/
def startsWithStr (s pre : String) : Bool := pre.data.isPrefixOf s.data

/-- `re.match(r'^\d+\.', sentence.strip())`: after stripping, a nonempty run
of digits immediately followed by a period. -/
def startsNumbered (sentence : String) : Bool :=
  let cs := (pyStrip sentence).data
  decide (0 < (cs.takeWhile Char.isDigit).length) &&
  (match cs.dropWhile Char.isDigit with
   | c :: _ => c == '.'
   | [] => false)

/-- `score_sentence` from `evidence_selector.py`. -/
def score_sentence (sentence : String) (intent : String) : ℚ :=
  let sentence_lower := pyLower sentence
  if intent = "RESULT" then
    (if sentence.data.any Char.isDigit then 2/10 else 0)
    + (if containsStr sentence "%" then 15/100 else 0)
    + (if ["accuracy", "f1", "precision", "recall"].any
         (fun kw => containsStr sentence_lower kw) then 2/10 else 0)
  else if intent = "METHOD" then
    (if ["step", "algorithm", "pipeline", "architecture"].any
         (fun kw => containsStr sentence_lower kw) then 2/10 else 0)
    + (if startsNumbered sentence || startsWithStr sentence_lower "first," then
        15/100 else 0)
  else if intent = "API_USAGE" then
    (let symbol_count := (["(", ")", "="].filter
        (fun s => containsStr sentence s)).length
     if 2 ≤ symbol_count then 25/100 else if 1 ≤ symbol_count then 15/100 else 0)
    + (if ["parameter", "argument", "return"].any
         (fun kw => containsStr sentence_lower kw) then 15/100 else 0)
  else if intent = "DEFINITION" then
    (if ["is defined as", "refers to", "means"].any
         (fun kw => containsStr sentence_lower kw) then 3/10 else 0)
  else if intent = "COMPARISON" then
    (if ["compare", "difference", "versus", "better", "worse"].any
         (fun kw => containsStr sentence_lower kw) then 2/10 else 0)
  else 0

/-- The per-sentence score used by `select_evidence`: intent heuristics when
the confidence exceeds 0.3, else the length-based default
`len(sentence) / 1000.0`. -/
def effScore (intent_info : IntentInfo) (sentence : String) : ℚ :=
  if 3/10 < intent_info.confidence then score_sentence sentence intent_info.intent
  else (sentence.length : ℚ) / 1000

/-- The `evidence_list` built by the chunk/sentence loops of
`select_evidence`: a scored evidence item per sentence, appended only when its
score is positive. -/
def evidenceCandidates (retrieved_chunks : List RankedChunk)
    (intent_info : IntentInfo) : List Evidence :=
  retrieved_chunks.flatMap (fun chunk =>
    (split_into_sentences chunk.text).filterMap (fun s =>
      if 0 < effScore intent_info s then
        some ⟨s, chunk.page, chunk.sectionName, effScore intent_info s⟩
      else none))

/-- The comparison of `evidence_list.sort(key=lambda x: x["score"], reverse=True)`. -/
def evidenceLE (a b : Evidence) : Bool := decide (b.score ≤ a.score)

/-- `select_evidence` from `evidence_selector.py`. -/
def select_evidence (retrieved_chunks : List RankedChunk)
    (intent_info : IntentInfo) (top_k : Nat) : List Evidence :=
  ((evidenceCandidates retrieved_chunks intent_info).mergeSort evidenceLE).take top_k

/-- `select_evidence` as the specification words it: score every sentence of
every chunk, discard the sentences scoring ≤ 0, stable-sort the survivors by
score descending, return the first `limit`. -/
def select_evidence_spec (retrieved_chunks : List RankedChunk)
    (intent_info : IntentInfo) (top_k : Nat) : List Evidence :=
  let scored := retrieved_chunks.flatMap (fun chunk =>
    (split_into_sentences chunk.text).map (fun s =>
      (⟨s, chunk.page, chunk.sectionName, effScore intent_info s⟩ : Evidence)))
  ((scored.filter (fun e => decide (0 < e.score))).mergeSort evidenceLE).take top_k

/-- Python's `sep.join(strings)`. -/
def pyJoin (sep : String) : List String → String
  | [] => ""
  | [x] => x
  | x :: y :: rest => x ++ sep ++ pyJoin sep (y :: rest)

/-- `compress_context` from `compressor.py`, parametrised (like the reranker)
by the list the external `search_index` call returned. -/
def compress_context (initial_results : List SearchResult)
    (intent_info : IntentInfo) (top_k : Nat) (token_limit : Int) :
    CompressionResult :=
  let retrieved_chunks := retrieve_with_intent initial_results intent_info top_k
  let evidence_list := select_evidence retrieved_chunks intent_info (top_k * 5)
  let budget_result := apply_budget evidence_list token_limit
  { compressed_context :=
      pyJoin "\n\n" (budget_result.selected_evidence.map (fun e => e.sentence)),
    selected_evidence := budget_result.selected_evidence,
    tokens_used := budget_result.tokens_used,
    num_sentences := budget_result.num_sentences }

theorem evidenceLE_trans (a b c : Evidence) (hab : evidenceLE a b)
    (hbc : evidenceLE b c) : evidenceLE a c := by
  unfold evidenceLE at hab hbc ⊢
  exact decide_eq_true (le_trans (of_decide_eq_true hbc) (of_decide_eq_true hab))

theorem evidenceLE_total (a b : Evidence) : evidenceLE a b || evidenceLE b a := by
  unfold evidenceLE
  rw [Bool.or_eq_true]
  rcases le_total a.score b.score with h | h
  · exact Or.inr (decide_eq_true h)
  · exact Or.inl (decide_eq_true h)

theorem evidenceCandidates_eq (chunks : List RankedChunk) (info : IntentInfo) :
    evidenceCandidates chunks info
      = (chunks.flatMap (fun chunk =>
          (split_into_sentences chunk.text).map (fun s =>
            (⟨s, chunk.page, chunk.sectionName, effScore info s⟩ : Evidence)))).filter
          (fun e => decide (0 < e.score)) := by
  unfold evidenceCandidates
  induction chunks with
  | nil => rfl
  | cons c rest ih =>
    simp only [List.flatMap_cons, List.filter_append] at ih ⊢
    rw [ih]
    congr 1
    induction split_into_sentences c.text with
    | nil => rfl
    | cons s ss ihs =>
      simp only [List.filterMap_cons, List.map_cons, List.filter_cons]
      by_cases h : 0 < effScore info s
      · rw [if_pos h]
        have hb : (decide (0 < (Evidence.mk s c.page c.sectionName
            (effScore info s)).score)) = true := decide_eq_true h
        rw [hb, ihs]
        rfl
      · rw [if_neg h]
        have hb : (decide (0 < (Evidence.mk s c.page c.sectionName
            (effScore info s)).score)) = false := decide_eq_false h
        rw [hb, ihs]
        rfl

/-- C4: `select_evidence` scores every sentence with the intent heuristics
when the confidence exceeds 0.3 and with `len(sentence)/1000` otherwise,
discards every sentence scoring ≤ 0, stable-sorts the survivors across all
chunks by score descending, and returns at most the first `limit` items:
it agrees with the specification-worded `select_evidence_spec`, its output is
bounded by `limit`, sorted by score descending, positive-scored throughout,
and the underlying sort keeps the original relative order of tied items. -/
theorem select_evidence_matches_spec (chunks : List RankedChunk)
    (info : IntentInfo) (top_k : Nat) :
    select_evidence chunks info top_k = select_evidence_spec chunks info top_k ∧
    (select_evidence chunks info top_k).length ≤ top_k ∧
    (select_evidence chunks info top_k).Pairwise (fun a b => b.score ≤ a.score) ∧
    (∀ e ∈ select_evidence chunks info top_k, 0 < e.score) ∧
    (∀ a b : Evidence, List.Sublist [a, b] (evidenceCandidates chunks info) →
      b.score ≤ a.score →
      List.Sublist [a, b] ((evidenceCandidates chunks info).mergeSort evidenceLE)) := by
  refine ⟨?_, ?_, ?_, ?_, ?_⟩
  · unfold select_evidence select_evidence_spec
    rw [evidenceCandidates_eq]
  · unfold select_evidence
    rw [List.length_take]
    exact min_le_left _ _
  · unfold select_evidence
    apply List.Pairwise.sublist (List.take_sublist top_k _)
    exact (List.sorted_mergeSort (fun a b c => evidenceLE_trans a b c)
      (fun a b => evidenceLE_total a b) _).imp (fun h => of_decide_eq_true h)
  · intro e he
    unfold select_evidence at he
    have he' : e ∈ evidenceCandidates chunks info :=
      List.mem_mergeSort.mp (List.mem_of_mem_take he)
    unfold evidenceCandidates at he'
    obtain ⟨c, hc, hin⟩ := List.mem_flatMap.mp he'
    obtain ⟨s, hs, hsome⟩ := List.mem_filterMap.mp hin
    by_cases h : 0 < effScore info s
    · rw [if_pos h] at hsome
      cases hsome
      exact h
    · rw [if_neg h] at hsome
      cases hsome
  · intro a b hsub hle
    exact List.pair_sublist_mergeSort (fun a b c => evidenceLE_trans a b c)
      (fun a b => evidenceLE_total a b) (decide_eq_true hle) hsub

theorem select_evidence_matches_spec_witness :
    select_evidence [] infoLow 3 = select_evidence_spec [] infoLow 3 :=
  (select_evidence_matches_spec [] infoLow 3).1

theorem retrieve_nil (info : IntentInfo) (top_k : Nat) :
    retrieve_with_intent [] info top_k = [] := by
  simp only [retrieve_with_intent, List.map_nil, List.mergeSort_nil, List.take_nil]
  rfl

/-- C9: whenever no sentence of any retrieved chunk scores above 0,
`select_evidence` returns an empty evidence list without failing, and
`compress_context` then returns the empty compressed context with
`tokens_used = 0` and `num_sentences = 0` rather than erroring. -/
theorem no_evidence_graceful (results : List SearchResult) (info : IntentInfo)
    (top_k : Nat) (token_limit : Int)
    (h : ∀ c ∈ retrieve_with_intent results info top_k,
      ∀ s ∈ split_into_sentences c.text, effScore info s ≤ 0) :
    select_evidence (retrieve_with_intent results info top_k) info (top_k * 5) = [] ∧
    compress_context results info top_k token_limit = ⟨"", [], 0, 0⟩ := by
  have hcand : evidenceCandidates (retrieve_with_intent results info top_k) info = [] := by
    unfold evidenceCandidates
    rw [List.flatMap_eq_nil_iff]
    intro c hc
    rw [List.filterMap_eq_nil_iff]
    intro s hs
    rw [if_neg (not_lt.mpr (h c hc s hs))]
  have hsel : select_evidence (retrieve_with_intent results info top_k) info
      (top_k * 5) = [] := by
    unfold select_evidence
    rw [hcand, List.mergeSort_nil, List.take_nil]
  refine ⟨hsel, ?_⟩
  simp only [compress_context]
  rw [hsel]
  rfl

theorem no_evidence_graceful_witness :
    compress_context [] infoLow 1 100 = ⟨"", [], 0, 0⟩ :=
  (no_evidence_graceful [] infoLow 1 100
    (fun c hc => absurd hc (by rw [retrieve_nil]; exact List.not_mem_nil c))).2

theorem budgetLoop_zero_cost (ev : List Evidence) :
    ∀ e ∈ (budgetLoop ev 0 0).1, evCost e = 0 := by
  induction ev with
  | nil => intro e he; cases he
  | cons e rest ih =>
    intro f hf
    simp only [budgetLoop] at hf
    by_cases hcond : ((0 : Nat) : Int) + (evCost e : Int) ≤ 0
    · rw [if_pos hcond] at hf
      have hc0 : evCost e = 0 := by push_cast at hcond; omega
      rcases List.mem_cons.mp hf with rfl | hf'
      · exact hc0
      · apply ih
        have : (0 : Nat) + evCost e = 0 := by omega
        rw [this] at hf'
        exact hf'
    · rw [if_neg hcond] at hf
      cases hf

theorem apply_budget_zero_of_long (ev : List Evidence)
    (hev : ∀ e ∈ ev, 4 ≤ e.sentence.length) :
    apply_budget ev 0 = ⟨[], 0, 0⟩ := by
  cases ev with
  | nil => rfl
  | cons e rest =>
    have h4 : 4 ≤ e.sentence.length := hev e (List.mem_cons_self e rest)
    have hc : 1 ≤ evCost e := (Nat.one_le_div_iff (by norm_num)).mpr h4
    have hneg : ¬ (((0 : Nat) : Int) + (evCost e : Int) ≤ 0) := by push_cast; omega
    unfold apply_budget
    simp only [budgetLoop, if_neg hneg]
    rfl

/-- C6 (amended): calling `apply_budget` with `token_limit = 0` always yields
`tokens_used = 0`, and every sentence it selects has estimated cost 0, i.e.
fewer than 4 characters (short sentences are accepted because their cost
rounds down to zero); when every evidence sentence has at least 4 characters
the selection is empty with `num_sentences = 0`, and `compress_context` with
`token_limit = 0` returns the empty compressed context whenever every
sentence of every reranked chunk has at least 4 characters. -/
theorem apply_budget_zero_limit (ev : List Evidence) :
    (apply_budget ev 0).tokens_used = 0 ∧
    (∀ e ∈ (apply_budget ev 0).selected_evidence, evCost e = 0) ∧
    ((∀ e ∈ ev, 4 ≤ e.sentence.length) → apply_budget ev 0 = ⟨[], 0, 0⟩) ∧
    (∀ (results : List SearchResult) (info : IntentInfo) (top_k : Nat),
      (∀ c ∈ retrieve_with_intent results info top_k,
        ∀ s ∈ split_into_sentences c.text, 4 ≤ s.length) →
      compress_context results info top_k 0 = ⟨"", [], 0, 0⟩) := by
  refine ⟨?_, budgetLoop_zero_cost ev, apply_budget_zero_of_long ev, ?_⟩
  · have h2 : (((budgetLoop ev 0 0).2 : Nat) : Int) ≤ 0 :=
      budgetLoop_le ev 0 0 (by norm_num)
    have : (budgetLoop ev 0 0).2 = 0 := by exact_mod_cast Int.le_antisymm h2 (Int.ofNat_nonneg _)
    exact this
  · intro results info top_k hall
    have hev : ∀ e ∈ select_evidence (retrieve_with_intent results info top_k)
        info (top_k * 5), 4 ≤ e.sentence.length := by
      intro e he
      unfold select_evidence at he
      have he' := List.mem_mergeSort.mp (List.mem_of_mem_take he)
      unfold evidenceCandidates at he'
      obtain ⟨c, hc, hin⟩ := List.mem_flatMap.mp he'
      obtain ⟨s, hs, hsome⟩ := List.mem_filterMap.mp hin
      by_cases h : 0 < effScore info s
      · rw [if_pos h] at hsome
        cases hsome
        exact hall c hc s hs
      · rw [if_neg h] at hsome
        cases hsome
    simp only [compress_context]
    rw [apply_budget_zero_of_long _ hev]
    rfl

theorem apply_budget_zero_limit_witness :
    ((∀ e ∈ evB, 4 ≤ e.sentence.length) ∧ apply_budget evB 0 = ⟨[], 0, 0⟩) ∧
    compress_context [] infoLow 1 0 = ⟨"", [], 0, 0⟩ :=
  ⟨⟨by decide, (apply_budget_zero_limit evB).2.2.1 (by decide)⟩,
   (apply_budget_zero_limit []).2.2.2 [] infoLow 1
     (fun c hc => absurd hc (by rw [retrieve_nil]; exact List.not_mem_nil c))⟩

/-- A single retrieval hit whose text is the 3-character sentence `"Hi."`. -/
def resShort : List SearchResult := [⟨0, 1, "Intro", "Hi.", 0⟩]

/-- C6 counterexample: a sentence with fewer than 4 characters has estimated
token cost `3 // 4 = 0`, so even with `token_limit = 0` the budget loop
accepts it: `num_sentences = 1` (not 0) and the selection is nonempty, and
`compress_context` with `token_limit = 0` returns the nonempty context
`"Hi."` rather than the empty string. -/
theorem token_limit_zero_c6_counterexample :
    (apply_budget [⟨"Hi.", 1, "Intro", 3/1000⟩] 0).num_sentences = 1 ∧
    (compress_context resShort infoLow 5 0).compressed_context = "Hi." ∧
    "Hi." ≠ "" := by
  have hnc : ¬ ((3 : ℚ)/10 < infoLow.confidence) := by norm_num [infoLow]
  have heff : effScore infoLow "Hi." = (("Hi.".length : Nat) : ℚ) / 1000 := by
    unfold effScore
    rw [if_neg hnc]
  have hpos : 0 < effScore infoLow "Hi." := by
    rw [heff, show "Hi.".length = 3 from rfl]
    norm_num
  have hretr : retrieve_with_intent resShort infoLow 5
      = [⟨0, 1, "Intro", "Hi.", -(0 : ℚ), 0, -(0 : ℚ) + 0, 1⟩] := by
    simp only [retrieve_with_intent, resShort, List.map_cons, List.map_nil,
      if_neg hnc, List.mergeSort_singleton]
    rfl
  have hsplit : split_into_sentences "Hi." = ["Hi."] := by decide
  have hsel : select_evidence [⟨0, 1, "Intro", "Hi.", -(0 : ℚ), 0, -(0 : ℚ) + 0, 1⟩]
      infoLow (5 * 5) = [⟨"Hi.", 1, "Intro", effScore infoLow "Hi."⟩] := by
    simp only [select_evidence, evidenceCandidates, List.flatMap_cons,
      List.flatMap_nil, hsplit, List.filterMap_cons, List.filterMap_nil,
      if_pos hpos, List.append_nil, List.mergeSort_singleton]
    rfl
  have hcomp : (compress_context resShort infoLow 5 0).compressed_context = "Hi." := by
    simp only [compress_context]
    rw [hretr, hsel]
    rfl
  exact ⟨rfl, hcomp, by decide⟩
